import Mathlib

/-!
Shallow embedding of `src/simple_scheduler.py` (AP-Techpulse/CLASSROOM-SCHEDULER).

The Python module implements a greedy first-fit classroom scheduler.  The
I/O wrappers (`load_user_data`, `print_schedule`, `save_schedule_to_file`)
are out of scope; `schedule_courses` is embedded as a function of the data
that `load_user_data` would provide: the course list and the lecturer list.
Python dicts keyed by strings become association lists preserving insertion
order; the three usage dicts (used only for key-membership) become lists of
keys; a dict record whose keys vary between branches (the result record and
the unscheduled records) becomes a structure with `Option` fields for the
keys that are present on some branches only.
-/

namespace Scheduler

/-- One classroom from the hardcoded `CLASSROOMS` catalog: name and capacity. -/
structure Room where
  name : String
  capacity : Nat
deriving DecidableEq

/-- One input course, mirroring the fields of a course object in
`user_input.json` consumed by `schedule_courses`. -/
structure Course where
  course_code : String
  title : String
  level : Nat
  lecturer : String
  hours_per_week : Nat
  enrollment : Nat
deriving DecidableEq

/-- One input lecturer object: `{"name": ..., "hours_per_week": ...}`. -/
structure LecturerInput where
  name : String
  hours_per_week : Nat
deriving DecidableEq

/-- The per-lecturer record built by `schedule_courses`
(`{'hours_available': ..., 'hours_used': 0}`). -/
structure LecturerState where
  hours_available : Nat
  hours_used : Nat
deriving DecidableEq

/-- A ScheduledSession: one entry appended to the `schedule` list (lines
150-160 of the source). -/
structure Entry where
  course : String
  title : String
  level : Nat
  lecturer : String
  room : String
  day : String
  time : String
  capacity : Nat
  enrollment : Nat
deriving DecidableEq

/-- An entry of the `unscheduled` list.  Both branches spread the original
course fields (`**course`); the missing-lecturer branch (lines 115-118) adds
only `reason`, while the shortfall branch (lines 177-182) also adds
`sessions_assigned` and `sessions_needed` — hence the `Option` fields. -/
structure UnschedRecord where
  course_code : String
  title : String
  level : Nat
  lecturer : String
  hours_per_week : Nat
  enrollment : Nat
  sessions_assigned : Option Nat
  sessions_needed : Option Nat
  reason : String
deriving DecidableEq

/-- The `statistics` dict (lines 191-198).  `fully_scheduled` is an `Int`
because Python subtraction may go negative.  `success_rate` is Python
`round(x, 1)` modelled over exact rationals (`roundTenths`); no claim
depends on its tie behaviour. -/
structure Stats where
  total_courses : Nat
  fully_scheduled : Int
  partially_scheduled : Nat
  unscheduled : Nat
  success_rate : Rat
  total_sessions : Nat
deriving DecidableEq

/-- The result record of `schedule_courses`.  The empty-course branch
(lines 81-86) returns `schedule`, `unscheduled`, `message`; the main branch
(lines 200-205) returns `schedule`, `unscheduled`, `statistics`,
`lecturer_workload`.  Keys absent on a branch are `none`. -/
structure Result where
  schedule : List Entry
  unscheduled : List UnschedRecord
  message : Option String
  statistics : Option Stats
  lecturer_workload : Option (List (String × Nat))

/-- The hardcoded `TIME_SLOTS` catalog (lines 14-37): (day, time) pairs. -/
def TIME_SLOTS : List (String × String) := [
  ("Monday", "8 AM - 10 AM"),
  ("Monday", "10 AM - 12 PM"),
  ("Monday", "12 PM - 2 PM"),
  ("Monday", "2 PM - 4 PM"),
  ("Tuesday", "8 AM - 10 AM"),
  ("Tuesday", "10 AM - 12 PM"),
  ("Tuesday", "12 PM - 2 PM"),
  ("Tuesday", "2 PM - 4 PM"),
  ("Wednesday", "8 AM - 10 AM"),
  ("Wednesday", "10 AM - 12 PM"),
  ("Thursday", "8 AM - 10 AM"),
  ("Thursday", "10 AM - 12 PM"),
  ("Thursday", "12 PM - 2 PM"),
  ("Thursday", "2 PM - 4 PM"),
  ("Friday", "8 AM - 10 AM"),
  ("Friday", "10 AM - 12 PM"),
  ("Friday", "12 PM - 2 PM"),
  ("Friday", "2 PM - 4 PM")]

/-- The hardcoded `CLASSROOMS` catalog (lines 40-48). -/
def CLASSROOMS : List Room := [
  ⟨"Software Lab", 90⟩,
  ⟨"Hardware Lab", 80⟩,
  ⟨"CS Lecture Hall 1", 200⟩,
  ⟨"CS Lecture Hall 2", 150⟩,
  ⟨"Tutorial Room A", 50⟩,
  ⟨"Tutorial Room B", 50⟩,
  ⟨"Seminar Room", 100⟩]

/-- Insert a room into a capacity-sorted list, in front of the first room
of greater-or-equal capacity (so an element keeps its place ahead of
equal-capacity elements that followed it in the input). -/
def insertByCapacity (r : Room) : List Room → List Room
  | [] => [r]
  | q :: rest =>
    if q.capacity < r.capacity then q :: insertByCapacity r rest
    else r :: q :: rest

/-- Stable insertion sort by capacity. -/
def sortByCapacity : List Room → List Room
  | [] => []
  | r :: rest => insertByCapacity r (sortByCapacity rest)

/-- `sorted(CLASSROOMS, key=lambda r: r['capacity'])` (line 140): Python's
`sorted` is stable, and a stable sort's output is uniquely determined by
the input, so the stable insertion sort above computes the same list. -/
def sortedClassrooms : List Room := sortByCapacity CLASSROOMS

/-- `calculate_sessions_needed` (lines 67-69): `(hours_per_week + 1) // 2`. -/
def calculate_sessions_needed (hours_per_week : Nat) : Nat :=
  (hours_per_week + 1) / 2

/-- The mutable state threaded through the scheduling loop: the lecturer
dict, the three usage dicts (modelled by their key sets, as lists), and the
two output lists. -/
structure SchedState where
  lecturers : List (String × LecturerState)
  room_usage : List (String × String × String)
  lecturer_usage : List (String × String × String)
  level_usage : List (Nat × String × String)
  schedule : List Entry
  unscheduled : List UnschedRecord
deriving DecidableEq

/-- `lecturers[lec['name']] = {...}` (lines 90-94): Python dict assignment.
If the key exists the value is replaced in place (insertion order kept);
otherwise the pair is appended. -/
def insertLecturer (l : List (String × LecturerState)) (name : String)
    (hrs : Nat) : List (String × LecturerState) :=
  if name ∈ l.map Prod.fst then
    l.map (fun p => if p.1 = name then (p.1, ⟨hrs, 0⟩) else p)
  else
    l ++ [(name, ⟨hrs, 0⟩)]

/-- The lecturer-lookup table built from the input list (lines 89-94). -/
def buildLecturers (lecturers_data : List LecturerInput) :
    List (String × LecturerState) :=
  lecturers_data.foldl (fun acc lec => insertLecturer acc lec.name lec.hours_per_week) []

/-- `lecturers[lecturer_name]['hours_used'] += 2` (line 166): dict value
update at a key. -/
def bumpHours (l : List (String × LecturerState)) (name : String) :
    List (String × LecturerState) :=
  l.map (fun p => if p.1 = name then
    (p.1, ⟨p.2.hours_available, p.2.hours_used + 2⟩) else p)

/-- The inner room loop (lines 139-170): scan rooms in ascending-capacity
order, skip a room whose capacity is below 80% of enrollment
(`capacity < enrollment * 0.8`, i.e. `5 * capacity < 4 * enrollment` since
0.8 = 4/5) or whose (room, day, time) is occupied; return the first
survivor. -/
def findRoom (rooms : List Room) (enrollment : Nat)
    (room_usage : List (String × String × String)) (day time : String) :
    Option Room :=
  match rooms with
  | [] => none
  | r :: rest =>
    if 5 * r.capacity < 4 * enrollment then
      findRoom rest enrollment room_usage day time
    else if (r.name, day, time) ∈ room_usage then
      findRoom rest enrollment room_usage day time
    else
      some r

/-- The ScheduledSession appended at lines 150-160. -/
def mkEntry (course : Course) (room : Room) (day time : String) : Entry :=
  { course := course.course_code
    title := course.title
    level := course.level
    lecturer := course.lecturer
    room := room.name
    day := day
    time := time
    capacity := room.capacity
    enrollment := course.enrollment }

/-- The slot loop `for day, time in TIME_SLOTS` (lines 122-174), with the
`break` once `sessions_assigned >= sessions_needed` and the three `continue`
guards (budget exhausted, lecturer busy, level busy).  On a successful room
search the session is appended, the three conflict keys are marked, the
lecturer's hours are bumped by 2 and the count increments.  Returns the
final `sessions_assigned` and state. -/
def scanSlots (slots : List (String × String)) (course : Course)
    (needed assigned : Nat) (st : SchedState) : Nat × SchedState :=
  match slots with
  | [] => (assigned, st)
  | (day, time) :: rest =>
    if needed ≤ assigned then (assigned, st)
    else
      if ((st.lecturers.lookup course.lecturer).getD ⟨0, 0⟩).hours_available ≤
          ((st.lecturers.lookup course.lecturer).getD ⟨0, 0⟩).hours_used then
        scanSlots rest course needed assigned st
      else if (course.lecturer, day, time) ∈ st.lecturer_usage then
        scanSlots rest course needed assigned st
      else if (course.level, day, time) ∈ st.level_usage then
        scanSlots rest course needed assigned st
      else
        match findRoom sortedClassrooms course.enrollment st.room_usage day time with
        | none => scanSlots rest course needed assigned st
        | some room =>
          let st' : SchedState :=
            { st with
              schedule := st.schedule ++ [mkEntry course room day time]
              room_usage := (room.name, day, time) :: st.room_usage
              lecturer_usage := (course.lecturer, day, time) :: st.lecturer_usage
              level_usage := (course.level, day, time) :: st.level_usage
              lecturers := bumpHours st.lecturers course.lecturer }
          scanSlots rest course needed (assigned + 1) st'

/-- The unscheduled record of the missing-lecturer branch (lines 115-118):
`{**course, "reason": ...}` — no session-count keys. -/
def unknownLecturerRecord (course : Course) : UnschedRecord :=
  { course_code := course.course_code
    title := course.title
    level := course.level
    lecturer := course.lecturer
    hours_per_week := course.hours_per_week
    enrollment := course.enrollment
    sessions_assigned := none
    sessions_needed := none
    reason := "Lecturer " ++ course.lecturer ++ " not found in system" }

/-- The unscheduled record of the shortfall branch (lines 177-182). -/
def shortfallRecord (course : Course) (assigned needed : Nat) : UnschedRecord :=
  { course_code := course.course_code
    title := course.title
    level := course.level
    lecturer := course.lecturer
    hours_per_week := course.hours_per_week
    enrollment := course.enrollment
    sessions_assigned := some assigned
    sessions_needed := some needed
    reason := "Could only schedule " ++ toString assigned ++ "/" ++
      toString needed ++ " sessions" }

/-- One iteration of `for course in courses` (lines 105-185): reject a
course whose lecturer is unknown without touching any other state; otherwise
run the slot scan and, when the assigned count falls short of the needed
count, append a shortfall record (the assigned sessions stay in place). -/
def processCourse (st : SchedState) (course : Course) : SchedState :=
  let needed := calculate_sessions_needed course.hours_per_week
  if (st.lecturers.lookup course.lecturer).isNone then
    { st with unscheduled := st.unscheduled ++ [unknownLecturerRecord course] }
  else
    let r := scanSlots TIME_SLOTS course needed 0 st
    if r.1 < needed then
      { r.2 with unscheduled :=
          r.2.unscheduled ++ [shortfallRecord course r.1 needed] }
    else
      r.2

/-- The state at the top of the course loop (lines 89-102): lecturer table
built from the input, all usage dicts and output lists empty. -/
def initState (lecturers_data : List LecturerInput) : SchedState :=
  { lecturers := buildLecturers lecturers_data
    room_usage := []
    lecturer_usage := []
    level_usage := []
    schedule := []
    unscheduled := [] }

/-- The state after the whole course loop. -/
def runSchedule (courses : List Course) (lecturers_data : List LecturerInput) :
    SchedState :=
  courses.foldl processCourse (initState lecturers_data)

/-- Python `round(x, 1)` on the success rate, over exact rationals
(round half towards the larger value; Python's float tie-to-even can differ
only at exact ties, which no claim touches). -/
def roundTenths (q : Rat) : Rat := (round (q * 10) : Int) / 10

/-- The `statistics` dict (lines 187-198).  `scheduled_courses` counts the
input courses whose code occurs among the schedule entries; `fully_scheduled`
is the Python subtraction `scheduled_courses - len(unscheduled)`, which can
be negative. -/
def mkStats (courses : List Course) (st : SchedState) : Stats :=
  let total_courses := courses.length
  let scheduled_courses :=
    (courses.filter (fun c => st.schedule.any (fun s => s.course = c.course_code))).length
  { total_courses := total_courses
    fully_scheduled := (scheduled_courses : Int) - (st.unscheduled.length : Int)
    partially_scheduled :=
      (st.unscheduled.filter (fun u => 0 < u.sessions_assigned.getD 0)).length
    unscheduled :=
      (st.unscheduled.filter (fun u => u.sessions_assigned.getD 0 = 0)).length
    success_rate :=
      roundTenths (if 0 < total_courses then
        (scheduled_courses : Rat) / (total_courses : Rat) * 100 else 0)
    total_sessions := st.schedule.length }

/-- `schedule_courses` (lines 72-205), as a function of the loaded input
data.  The empty-course branch returns the message-only record; the main
branch returns schedule, unscheduled, statistics and lecturer workload
(`{name: data['hours_used']}`). -/
def schedule_courses (courses : List Course)
    (lecturers_data : List LecturerInput) : Result :=
  if courses.isEmpty then
    { schedule := []
      unscheduled := []
      message := some "No courses to schedule. Please add courses first."
      statistics := none
      lecturer_workload := none }
  else
    let st := runSchedule courses lecturers_data
    { schedule := st.schedule
      unscheduled := st.unscheduled
      message := none
      statistics := some (mkStats courses st)
      lecturer_workload := some (st.lecturers.map (fun p => (p.1, p.2.hours_used))) }

/-- The (room, day, time) key of a schedule entry. -/
def roomKey (e : Entry) : String × String × String := (e.room, e.day, e.time)

/-- The (lecturer, day, time) key of a schedule entry. -/
def lecKey (e : Entry) : String × String × String := (e.lecturer, e.day, e.time)

/-- The (level, day, time) key of a schedule entry. -/
def levelKey (e : Entry) : Nat × String × String := (e.level, e.day, e.time)

/-- The shape every record of the `unscheduled` list has: either the
missing-lecturer shape (no session counts, "not found" reason) or the
shortfall shape (both counts present, assigned < needed, "Could only
schedule X/Y sessions" reason). -/
def GoodRecord (u : UnschedRecord) : Prop :=
  (u.sessions_assigned = none ∧ u.sessions_needed = none ∧
    u.reason = "Lecturer " ++ u.lecturer ++ " not found in system") ∨
  (∃ a n, u.sessions_assigned = some a ∧ u.sessions_needed = some n ∧
    a < n ∧
    u.reason = "Could only schedule " ++ toString a ++ "/" ++
      toString n ++ " sessions")

/-- Hour-budget bound maintained by the loop: each lecturer's consumption
is even (it grows in steps of 2 from 0) and exceeds the budget by at most
1 (a session is granted whenever `hours_used < hours_available`, so the
final value is at most `hours_available + 1`). -/
def HoursInv (l : List (String × LecturerState)) : Prop :=
  ∀ p ∈ l, p.2.hours_used ≤ p.2.hours_available + 1 ∧ 2 ∣ p.2.hours_used

/-- The loop invariant of `schedule_courses`, holding of the mutable state
before and after each course iteration. -/
structure StateInv (st : SchedState) : Prop where
  contain : ∀ e ∈ st.schedule, roomKey e ∈ st.room_usage ∧
    lecKey e ∈ st.lecturer_usage ∧ levelKey e ∈ st.level_usage
  pwRoom : st.schedule.Pairwise (fun a b => roomKey a ≠ roomKey b)
  pwLec : st.schedule.Pairwise (fun a b => lecKey a ≠ lecKey b)
  pwLevel : st.schedule.Pairwise (fun a b => levelKey a ≠ levelKey b)
  capacity : ∀ e ∈ st.schedule, 4 * e.enrollment ≤ 5 * e.capacity
  lecKnown : ∀ e ∈ st.schedule, e.lecturer ∈ st.lecturers.map Prod.fst
  keysNodup : (st.lecturers.map Prod.fst).Nodup
  hours : HoursInv st.lecturers
  unsched : ∀ u ∈ st.unscheduled, GoodRecord u

/-- Demo course: level 100, 4 hours/week (2 sessions), enrollment 40. -/
def demoCourseA : Course :=
  { course_code := "CSC101", title := "Intro to CS", level := 100,
    lecturer := "Dr. A", hours_per_week := 4, enrollment := 40 }

/-- Demo lecturer with a 10-hour budget. -/
def demoLecA : LecturerInput := { name := "Dr. A", hours_per_week := 10 }

/-- Demo course naming a lecturer that is not in the lecturer list. -/
def ghostCourse : Course :=
  { course_code := "CSC999", title := "Ghost Course", level := 200,
    lecturer := "Dr. Ghost", hours_per_week := 4, enrollment := 30 }

/-- Demo lecturer with an odd 3-hour budget. -/
def oddLecturer : LecturerInput := { name := "Dr. Odd", hours_per_week := 3 }

/-- Demo course taught by the odd-budget lecturer: needs 2 sessions
(4 hours), so its lecturer ends at 4 consumed hours against a budget of 3. -/
def oddCourse : Course :=
  { course_code := "CSC301", title := "Odd Hours", level := 300,
    lecturer := "Dr. Odd", hours_per_week := 4, enrollment := 10 }

/-- Demo lecturer with a 2-hour budget, enough for one session only. -/
def tightLecturer : LecturerInput := { name := "Dr. B", hours_per_week := 2 }

/-- Demo course needing 2 sessions from the 2-hour lecturer: one session
is placed and the second is refused, a 1/2 shortfall. -/
def tightCourse : Course :=
  { course_code := "CSC201", title := "Tight Fit", level := 200,
    lecturer := "Dr. B", hours_per_week := 4, enrollment := 10 }

/-! ### Association-list lemmas -/

/-- A successful lookup means the key occurs among the keys. -/
theorem lookup_mem_keys {l : List (String × LecturerState)} {k : String}
    {v : LecturerState} (h : l.lookup k = some v) : k ∈ l.map Prod.fst := by
  induction l with
  | nil => simp [List.lookup] at h
  | cons p rest ih =>
    rw [List.lookup] at h
    cases hk : (k == p.1) with
    | true =>
      simp only [List.map_cons, List.mem_cons]
      exact Or.inl (eq_of_beq hk)
    | false =>
      rw [hk] at h
      exact List.mem_cons_of_mem _ (ih h)

/-- A key with no occurrence among the keys looks up to `none`. -/
theorem lookup_eq_none_of_not_mem {l : List (String × LecturerState)}
    {k : String} (h : k ∉ l.map Prod.fst) : l.lookup k = none := by
  induction l with
  | nil => rfl
  | cons p rest ih =>
    simp only [List.map_cons, List.mem_cons] at h
    push_neg at h
    rw [List.lookup]
    have hk : (k == p.1) = false := beq_false_of_ne h.1
    rw [hk]
    exact ih h.2

/-- With nodup keys, lookup at a member's key returns that member's value. -/
theorem lookup_of_mem_nodup {l : List (String × LecturerState)}
    {p : String × LecturerState} (hn : (l.map Prod.fst).Nodup) (hp : p ∈ l) :
    l.lookup p.1 = some p.2 := by
  induction l with
  | nil => simp at hp
  | cons q rest ih =>
    simp only [List.map_cons, List.nodup_cons] at hn
    rcases List.mem_cons.mp hp with h | h
    · subst h
      rw [List.lookup]
      have hk : (p.1 == p.1) = true := beq_self_eq_true p.1
      rw [hk]
    · rw [List.lookup]
      have hne : p.1 ≠ q.1 := by
        intro he
        exact hn.1 (he ▸ List.mem_map_of_mem Prod.fst h)
      rw [beq_false_of_ne hne]
      exact ih hn.2 h

/-- `bumpHours` does not change the key sequence. -/
theorem bumpHours_keys (l : List (String × LecturerState)) (name : String) :
    (bumpHours l name).map Prod.fst = l.map Prod.fst := by
  induction l with
  | nil => rfl
  | cons p rest ih =>
    have h1 : bumpHours (p :: rest) name =
        (if p.1 = name then
          (p.1, ⟨p.2.hours_available, p.2.hours_used + 2⟩) else p) ::
          bumpHours rest name := rfl
    rw [h1, List.map_cons, List.map_cons, ih]
    congr 1
    split <;> rfl

/-- `bumpHours` preserves the hour-budget invariant when the bumped
lecturer (found by lookup) still had spare budget. -/
theorem bumpHours_inv {l : List (String × LecturerState)} {name : String}
    {v : LecturerState} (hn : (l.map Prod.fst).Nodup)
    (hl : l.lookup name = some v) (hv : v.hours_used < v.hours_available)
    (hi : HoursInv l) : HoursInv (bumpHours l name) := by
  intro q hq
  simp only [bumpHours, List.mem_map] at hq
  obtain ⟨p, hp, hpq⟩ := hq
  by_cases h : p.1 = name
  · have hpv : p.2 = v := by
      have h3 : l.lookup name = some p.2 := by
        rw [← h]
        exact lookup_of_mem_nodup hn hp
      rw [hl] at h3
      exact (Option.some.inj h3).symm
    rw [if_pos h] at hpq
    subst hpq
    have h4 := (hi p hp).2
    refine ⟨?_, ?_⟩ <;> simp only [hpv] at * <;> omega
  · rw [if_neg h] at hpq
    subst hpq
    exact hi p hp

/-! ### Room-search and slot-scan lemmas -/

/-- A room returned by the inner room loop is not yet occupied at the slot
and meets the 80% capacity rule. -/
theorem findRoom_spec {rooms : List Room} {enr : Nat}
    {usage : List (String × String × String)} {day time : String} {r : Room}
    (h : findRoom rooms enr usage day time = some r) :
    (r.name, day, time) ∉ usage ∧ 4 * enr ≤ 5 * r.capacity := by
  induction rooms with
  | nil => simp [findRoom] at h
  | cons q rest ih =>
    rw [findRoom] at h
    by_cases h1 : 5 * q.capacity < 4 * enr
    · rw [if_pos h1] at h
      exact ih h
    · rw [if_neg h1] at h
      by_cases h2 : (q.name, day, time) ∈ usage
      · rw [if_pos h2] at h
        exact ih h
      · rw [if_neg h2] at h
        cases Option.some.inj h
        exact ⟨h2, by omega⟩

/-- The slot scan never touches the `unscheduled` list. -/
theorem scanSlots_unscheduled (slots : List (String × String)) (c : Course)
    (needed : Nat) : ∀ (assigned : Nat) (st : SchedState),
    (scanSlots slots c needed assigned st).2.unscheduled = st.unscheduled := by
  induction slots with
  | nil => intro a st; rfl
  | cons s rest ih =>
    intro a st
    obtain ⟨day, time⟩ := s
    rw [scanSlots]
    split
    · rfl
    · split
      · exact ih a st
      · split
        · exact ih a st
        · split
          · exact ih a st
          · split
            · exact ih a st
            · exact ih (a + 1) _

/-- The slot scan only appends to the `schedule` list: the previous
schedule stays as an initial segment (no rollback). -/
theorem scanSlots_schedule_ext (slots : List (String × String)) (c : Course)
    (needed : Nat) : ∀ (assigned : Nat) (st : SchedState),
    ∃ t, (scanSlots slots c needed assigned st).2.schedule =
      st.schedule ++ t := by
  induction slots with
  | nil => intro a st; exact ⟨[], (List.append_nil _).symm⟩
  | cons s rest ih =>
    intro a st
    obtain ⟨day, time⟩ := s
    rw [scanSlots]
    split
    · exact ⟨[], (List.append_nil _).symm⟩
    · split
      · exact ih a st
      · split
        · exact ih a st
        · split
          · exact ih a st
          · split
            · exact ih a st
            · rename_i room hroom
              obtain ⟨t, ht⟩ := ih (a + 1)
                { st with
                  schedule := st.schedule ++ [mkEntry c room day time]
                  room_usage := (room.name, day, time) :: st.room_usage
                  lecturer_usage :=
                    (c.lecturer, day, time) :: st.lecturer_usage
                  level_usage := (c.level, day, time) :: st.level_usage
                  lecturers := bumpHours st.lecturers c.lecturer }
              exact ⟨mkEntry c room day time :: t, by
                rw [ht, List.append_assoc]
                rfl⟩

/-- The slot scan does not change the lecturer key sequence. -/
theorem scanSlots_keys (slots : List (String × String)) (c : Course)
    (needed : Nat) : ∀ (assigned : Nat) (st : SchedState),
    (scanSlots slots c needed assigned st).2.lecturers.map Prod.fst =
      st.lecturers.map Prod.fst := by
  induction slots with
  | nil => intro a st; rfl
  | cons s rest ih =>
    intro a st
    obtain ⟨day, time⟩ := s
    rw [scanSlots]
    split
    · rfl
    · split
      · exact ih a st
      · split
        · exact ih a st
        · split
          · exact ih a st
          · split
            · exact ih a st
            · rw [ih (a + 1) _]
              exact bumpHours_keys st.lecturers c.lecturer

/-- The slot scan preserves the loop invariant. -/
theorem scanSlots_inv (slots : List (String × String)) (c : Course)
    (needed : Nat) : ∀ (assigned : Nat) (st : SchedState), StateInv st →
    StateInv (scanSlots slots c needed assigned st).2 := by
  induction slots with
  | nil => intro a st h; exact h
  | cons s rest ih =>
    intro a st h
    obtain ⟨day, time⟩ := s
    rw [scanSlots]
    by_cases hna : needed ≤ a
    · rw [if_pos hna]; exact h
    · rw [if_neg hna]
      by_cases hbud :
          ((st.lecturers.lookup c.lecturer).getD ⟨0, 0⟩).hours_available ≤
          ((st.lecturers.lookup c.lecturer).getD ⟨0, 0⟩).hours_used
      · rw [if_pos hbud]; exact ih a st h
      · rw [if_neg hbud]
        by_cases hlec : (c.lecturer, day, time) ∈ st.lecturer_usage
        · rw [if_pos hlec]; exact ih a st h
        · rw [if_neg hlec]
          by_cases hlev : (c.level, day, time) ∈ st.level_usage
          · rw [if_pos hlev]; exact ih a st h
          · rw [if_neg hlev]
            cases hfr : findRoom sortedClassrooms c.enrollment
                st.room_usage day time with
            | none => exact ih a st h
            | some room =>
              obtain ⟨hroomfree, hcap⟩ := findRoom_spec hfr
              have hlook : ∃ w, st.lecturers.lookup c.lecturer = some w ∧
                  w.hours_used < w.hours_available := by
                cases hl : st.lecturers.lookup c.lecturer with
                | none =>
                  rw [hl] at hbud
                  exact absurd (Nat.le_refl 0) hbud
                | some w =>
                  rw [hl] at hbud
                  exact ⟨w, rfl, Nat.lt_of_not_le hbud⟩
              obtain ⟨w, hw, hwlt⟩ := hlook
              refine ih (a + 1) _ ⟨?_, ?_, ?_, ?_, ?_, ?_, ?_, ?_, ?_⟩
              · intro e he
                rcases List.mem_append.mp he with h1 | h1
                · obtain ⟨hr, hl2, hlv⟩ := h.contain e h1
                  exact ⟨List.mem_cons_of_mem _ hr,
                    List.mem_cons_of_mem _ hl2, List.mem_cons_of_mem _ hlv⟩
                · rw [List.mem_singleton] at h1
                  subst h1
                  exact ⟨List.mem_cons_self _ _, List.mem_cons_self _ _,
                    List.mem_cons_self _ _⟩
              · rw [List.pairwise_append]
                refine ⟨h.pwRoom, List.pairwise_singleton _ _, ?_⟩
                intro x hx y hy
                rw [List.mem_singleton] at hy
                subst hy
                intro hxy
                apply hroomfree
                have hk : roomKey (mkEntry c room day time) =
                    (room.name, day, time) := rfl
                rw [← hk, ← hxy]
                exact (h.contain x hx).1
              · rw [List.pairwise_append]
                refine ⟨h.pwLec, List.pairwise_singleton _ _, ?_⟩
                intro x hx y hy
                rw [List.mem_singleton] at hy
                subst hy
                intro hxy
                apply hlec
                have hk : lecKey (mkEntry c room day time) =
                    (c.lecturer, day, time) := rfl
                rw [← hk, ← hxy]
                exact (h.contain x hx).2.1
              · rw [List.pairwise_append]
                refine ⟨h.pwLevel, List.pairwise_singleton _ _, ?_⟩
                intro x hx y hy
                rw [List.mem_singleton] at hy
                subst hy
                intro hxy
                apply hlev
                have hk : levelKey (mkEntry c room day time) =
                    (c.level, day, time) := rfl
                rw [← hk, ← hxy]
                exact (h.contain x hx).2.2
              · intro e he
                rcases List.mem_append.mp he with h1 | h1
                · exact h.capacity e h1
                · rw [List.mem_singleton] at h1
                  subst h1
                  exact hcap
              · intro e he
                rw [bumpHours_keys]
                rcases List.mem_append.mp he with h1 | h1
                · exact h.lecKnown e h1
                · rw [List.mem_singleton] at h1
                  subst h1
                  exact lookup_mem_keys hw
              · rw [bumpHours_keys]
                exact h.keysNodup
              · exact bumpHours_inv h.keysNodup hw hwlt h.hours
              · exact h.unsched

/-! ### Course-step and whole-run invariants -/

/-- Processing one course preserves the loop invariant. -/
theorem processCourse_inv (st : SchedState) (c : Course) (h : StateInv st) :
    StateInv (processCourse st c) := by
  simp only [processCourse]
  by_cases hl : (st.lecturers.lookup c.lecturer).isNone = true
  · rw [if_pos hl]
    refine ⟨h.contain, h.pwRoom, h.pwLec, h.pwLevel, h.capacity, h.lecKnown,
      h.keysNodup, h.hours, ?_⟩
    intro u hu
    rcases List.mem_append.mp hu with h1 | h1
    · exact h.unsched u h1
    · rw [List.mem_singleton] at h1
      subst h1
      exact Or.inl ⟨rfl, rfl, rfl⟩
  · rw [if_neg hl]
    have hinv := scanSlots_inv TIME_SLOTS c
      (calculate_sessions_needed c.hours_per_week) 0 st h
    by_cases hs : (scanSlots TIME_SLOTS c
        (calculate_sessions_needed c.hours_per_week) 0 st).1 <
        calculate_sessions_needed c.hours_per_week
    · rw [if_pos hs]
      refine ⟨hinv.contain, hinv.pwRoom, hinv.pwLec, hinv.pwLevel,
        hinv.capacity, hinv.lecKnown, hinv.keysNodup, hinv.hours, ?_⟩
      intro u hu
      rcases List.mem_append.mp hu with h1 | h1
      · exact hinv.unsched u h1
      · rw [List.mem_singleton] at h1
        subst h1
        exact Or.inr ⟨_, _, rfl, rfl, hs, rfl⟩
    · rw [if_neg hs]
      exact hinv

/-- The course loop preserves the invariant. -/
theorem foldl_inv (courses : List Course) : ∀ st : SchedState, StateInv st →
    StateInv (courses.foldl processCourse st) := by
  induction courses with
  | nil => intro st h; exact h
  | cons c cs ih => intro st h; exact ih _ (processCourse_inv st c h)

/-- Replacing the value at one key does not change the key sequence. -/
theorem map_replace_keys (l : List (String × LecturerState)) (name : String)
    (v : LecturerState) :
    (l.map (fun p => if p.1 = name then (p.1, v) else p)).map Prod.fst =
      l.map Prod.fst := by
  induction l with
  | nil => rfl
  | cons p rest ih =>
    simp only [List.map_cons]
    rw [ih]
    congr 1
    split <;> rfl

/-- `insertLecturer` keeps keys nodup and inserts a zero-hours value. -/
theorem insertLecturer_facts {l : List (String × LecturerState)}
    (name : String) (hrs : Nat) (h1 : (l.map Prod.fst).Nodup)
    (h2 : ∀ p ∈ l, p.2.hours_used = 0) :
    ((insertLecturer l name hrs).map Prod.fst).Nodup ∧
    ∀ p ∈ insertLecturer l name hrs, p.2.hours_used = 0 := by
  rw [insertLecturer]
  by_cases hm : name ∈ l.map Prod.fst
  · rw [if_pos hm, map_replace_keys]
    refine ⟨h1, ?_⟩
    intro p hp
    rw [List.mem_map] at hp
    obtain ⟨q, hq, hqp⟩ := hp
    by_cases hq1 : q.1 = name
    · rw [if_pos hq1] at hqp
      rw [← hqp]
    · rw [if_neg hq1] at hqp
      rw [← hqp]
      exact h2 q hq
  · rw [if_neg hm, List.map_append]
    constructor
    · rw [List.nodup_append]
      exact ⟨h1, List.nodup_singleton _, by
        intro x hx
        simp only [List.map_cons, List.map_nil, List.mem_singleton]
        intro hxn
        exact hm (hxn ▸ hx)⟩
    · intro p hp
      rcases List.mem_append.mp hp with hp | hp
      · exact h2 p hp
      · rw [List.mem_singleton] at hp
        rw [hp]

/-- The lecturer table built from the input has nodup keys and all
`hours_used` counters at zero. -/
theorem buildLecturers_facts (data : List LecturerInput) :
    ((buildLecturers data).map Prod.fst).Nodup ∧
    ∀ p ∈ buildLecturers data, p.2.hours_used = 0 := by
  rw [buildLecturers]
  suffices hgen : ∀ acc : List (String × LecturerState),
      (acc.map Prod.fst).Nodup → (∀ p ∈ acc, p.2.hours_used = 0) →
      ((data.foldl (fun a lec =>
        insertLecturer a lec.name lec.hours_per_week) acc).map
          Prod.fst).Nodup ∧
      ∀ p ∈ data.foldl (fun a lec =>
        insertLecturer a lec.name lec.hours_per_week) acc,
        p.2.hours_used = 0 by
    exact hgen [] List.nodup_nil (by intro p hp; simp at hp)
  induction data with
  | nil => intro acc ha1 ha2; exact ⟨ha1, ha2⟩
  | cons d ds ih =>
    intro acc ha1 ha2
    obtain ⟨hb1, hb2⟩ := insertLecturer_facts d.name d.hours_per_week ha1 ha2
    exact ih _ hb1 hb2

/-- The invariant holds of the initial state. -/
theorem initState_inv (lecs : List LecturerInput) :
    StateInv (initState lecs) := by
  obtain ⟨h1, h2⟩ := buildLecturers_facts lecs
  refine ⟨?_, List.Pairwise.nil, List.Pairwise.nil, List.Pairwise.nil,
    ?_, ?_, h1, ?_, ?_⟩
  · intro e he; exact absurd he (List.not_mem_nil e)
  · intro e he; exact absurd he (List.not_mem_nil e)
  · intro e he; exact absurd he (List.not_mem_nil e)
  · intro p hp
    rw [h2 p hp]
    exact ⟨Nat.zero_le _, Dvd.intro 0 rfl⟩
  · intro u hu; exact absurd hu (List.not_mem_nil u)

/-- The invariant holds of the final state of every run. -/
theorem runSchedule_inv (courses : List Course)
    (lecs : List LecturerInput) : StateInv (runSchedule courses lecs) :=
  foldl_inv courses (initState lecs) (initState_inv lecs)

/-- One course step does not change the lecturer key sequence. -/
theorem processCourse_keys (st : SchedState) (c : Course) :
    (processCourse st c).lecturers.map Prod.fst =
      st.lecturers.map Prod.fst := by
  simp only [processCourse]
  by_cases hl : (st.lecturers.lookup c.lecturer).isNone = true
  · rw [if_pos hl]
  · rw [if_neg hl]
    by_cases hs : (scanSlots TIME_SLOTS c
        (calculate_sessions_needed c.hours_per_week) 0 st).1 <
        calculate_sessions_needed c.hours_per_week
    · rw [if_pos hs]
      exact scanSlots_keys TIME_SLOTS c _ 0 st
    · rw [if_neg hs]
      exact scanSlots_keys TIME_SLOTS c _ 0 st

/-- The whole run keeps the lecturer key sequence of the built table. -/
theorem runSchedule_keys (courses : List Course)
    (lecs : List LecturerInput) :
    (runSchedule courses lecs).lecturers.map Prod.fst =
      (buildLecturers lecs).map Prod.fst := by
  rw [runSchedule]
  suffices hgen : ∀ st : SchedState,
      (courses.foldl processCourse st).lecturers.map Prod.fst =
      st.lecturers.map Prod.fst by
    exact hgen (initState lecs)
  induction courses with
  | nil => intro st; rfl
  | cons c cs ih =>
    intro st
    rw [List.foldl_cons, ih, processCourse_keys]

/-- On a non-empty course list, `schedule_courses` is the main branch
applied to the final loop state. -/
theorem schedule_courses_cons (c : Course) (cs : List Course)
    (lecs : List LecturerInput) :
    schedule_courses (c :: cs) lecs =
      { schedule := (runSchedule (c :: cs) lecs).schedule
        unscheduled := (runSchedule (c :: cs) lecs).unscheduled
        message := none
        statistics := some (mkStats (c :: cs) (runSchedule (c :: cs) lecs))
        lecturer_workload := some ((runSchedule (c :: cs) lecs).lecturers.map
          (fun p => (p.1, p.2.hours_used))) } := rfl

/-! ### The claims -/

/-- Claim C9: `calculate_sessions_needed` equals the ceiling of
`hours_per_week / 2`, computed by floor division as
`(hours_per_week + 1) / 2`: its value bounds `hours_per_week / 2` from
above and is the least such bound, and 3 → 2, 4 → 2, 5 → 3. -/
theorem claim_C9 (h : Nat) :
    calculate_sessions_needed h = (h + 1) / 2 ∧
    h ≤ 2 * calculate_sessions_needed h ∧
    (∀ c : Nat, h ≤ 2 * c → calculate_sessions_needed h ≤ c) ∧
    calculate_sessions_needed 3 = 2 ∧ calculate_sessions_needed 4 = 2 ∧
    calculate_sessions_needed 5 = 3 := by
  refine ⟨rfl, ?_, ?_, rfl, rfl, rfl⟩
  · unfold calculate_sessions_needed
    omega
  · intro c hc
    unfold calculate_sessions_needed
    omega

/-- Witness for claim C9 at hours_per_week = 5 with bound c = 3. -/
theorem claim_C9_witness : calculate_sessions_needed 5 ≤ 3 :=
  (claim_C9 5).2.2.1 3 (by omega)

/-- Claim C8: an empty course list yields empty `schedule` and
`unscheduled` and the informational message. -/
theorem claim_C8 (lecs : List LecturerInput) :
    (schedule_courses [] lecs).schedule = [] ∧
    (schedule_courses [] lecs).unscheduled = [] ∧
    (schedule_courses [] lecs).message =
      some "No courses to schedule. Please add courses first." :=
  ⟨rfl, rfl, rfl⟩

/-- Claim C10: a single course with an unknown lecturer makes the
`fully_scheduled` statistic equal to -1, a negative value, on a non-empty
input. -/
theorem claim_C10 :
    ((schedule_courses [ghostCourse] [demoLecA]).statistics.map
      (fun s => s.fully_scheduled)) = some (-1) ∧ (-1 : Int) < 0 := by
  exact ⟨by decide, by decide⟩

/-- Counterexample to claim C3 as stated: on an empty course list the
returned record carries no `statistics` and no `lecturer_workload` key. -/
theorem claim_C3_counterexample :
    (schedule_courses [] []).statistics = none ∧
    (schedule_courses [] []).lecturer_workload = none := ⟨rfl, rfl⟩

/-- Claim C3 (amended): on every non-empty course list the result carries
all four of `schedule`, `unscheduled`, `statistics`, `lecturer_workload`
(and no message); on an empty list only `schedule`, `unscheduled` and the
message are present. -/
theorem claim_C3_amended (courses : List Course) (lecs : List LecturerInput)
    (h : courses ≠ []) :
    (schedule_courses courses lecs).statistics.isSome = true ∧
    (schedule_courses courses lecs).lecturer_workload.isSome = true ∧
    (schedule_courses courses lecs).message = none := by
  cases courses with
  | nil => exact absurd rfl h
  | cons c cs => exact ⟨rfl, rfl, rfl⟩

/-- Witness for the amended claim C3 at a one-course input. -/
theorem claim_C3_witness :
    (schedule_courses [ghostCourse] []).statistics.isSome = true :=
  (claim_C3_amended [ghostCourse] [] (List.cons_ne_nil _ _)).1

/-- Counterexample to claim C1 as stated: lecturer "Dr. Odd" offers 3
hours, yet after scheduling a 4-hour course the reported workload is 4,
which exceeds 3. -/
theorem claim_C1_counterexample :
    (schedule_courses [oddCourse] [oddLecturer]).lecturer_workload =
      some [("Dr. Odd", 4)] ∧
    oddLecturer.hours_per_week = 3 ∧ ¬(4 ≤ 3) := by
  refine ⟨by decide, rfl, by omega⟩

/-- Claim C1 (amended): every lecturer's cumulative `hours_used` is even
and exceeds `hours_available` by at most 1 (so it never exceeds the budget
when `hours_available` is even; an odd budget can be exceeded by exactly
one hour). -/
theorem claim_C1_amended (courses : List Course) (lecs : List LecturerInput)
    (p : String × LecturerState)
    (hp : p ∈ (runSchedule courses lecs).lecturers) :
    p.2.hours_used ≤ p.2.hours_available + 1 ∧ 2 ∣ p.2.hours_used ∧
    (2 ∣ p.2.hours_available → p.2.hours_used ≤ p.2.hours_available) := by
  obtain ⟨h1, h2⟩ := (runSchedule_inv courses lecs).hours p hp
  exact ⟨h1, h2, by omega⟩

/-- Witness for the amended claim C1: Dr. A ends at 4 of 10 hours. -/
theorem claim_C1_witness :
    ("Dr. A", ({ hours_available := 10, hours_used := 4 } : LecturerState)) ∈
      (runSchedule [demoCourseA] [demoLecA]).lecturers ∧
    (4 : Nat) ≤ 10 + 1 := by
  have hm : ("Dr. A",
      ({ hours_available := 10, hours_used := 4 } : LecturerState)) ∈
      (runSchedule [demoCourseA] [demoLecA]).lecturers := by decide
  exact ⟨hm, (claim_C1_amended [demoCourseA] [demoLecA] _ hm).1⟩

/-- Claim C2: in the returned `schedule`, no two entries share the
(room, day, time) key, none share (lecturer, day, time), and none share
(level, day, time). -/
theorem claim_C2 (courses : List Course) (lecs : List LecturerInput) :
    (schedule_courses courses lecs).schedule.Pairwise
      (fun a b => roomKey a ≠ roomKey b) ∧
    (schedule_courses courses lecs).schedule.Pairwise
      (fun a b => lecKey a ≠ lecKey b) ∧
    (schedule_courses courses lecs).schedule.Pairwise
      (fun a b => levelKey a ≠ levelKey b) := by
  cases courses with
  | nil => exact ⟨List.Pairwise.nil, List.Pairwise.nil, List.Pairwise.nil⟩
  | cons c cs =>
    have h := runSchedule_inv (c :: cs) lecs
    exact ⟨h.pwRoom, h.pwLec, h.pwLevel⟩

/-- Claim C5: every schedule entry's room capacity is at least 80% of the
entry's enrollment (equivalently in integers, 4·enrollment ≤ 5·capacity). -/
theorem claim_C5 (courses : List Course) (lecs : List LecturerInput)
    (e : Entry) (he : e ∈ (schedule_courses courses lecs).schedule) :
    (0.8 : ℚ) * (e.enrollment : ℚ) ≤ (e.capacity : ℚ) ∧
    4 * e.enrollment ≤ 5 * e.capacity := by
  have hnat : 4 * e.enrollment ≤ 5 * e.capacity := by
    cases courses with
    | nil => exact absurd he (List.not_mem_nil e)
    | cons c cs => exact (runSchedule_inv (c :: cs) lecs).capacity e he
  refine ⟨?_, hnat⟩
  have h2 : (4 : ℚ) * (e.enrollment : ℚ) ≤ 5 * (e.capacity : ℚ) := by
    exact_mod_cast hnat
  have h08 : (0.8 : ℚ) = 4 / 5 := by norm_num
  rw [h08]
  linarith

/-- Witness for claim C5: the first session of the demo course sits in
Tutorial Room A (capacity 50) with enrollment 40 and 0.8·40 ≤ 50. -/
theorem claim_C5_witness :
    (0.8 : ℚ) * ((40 : Nat) : ℚ) ≤ ((50 : Nat) : ℚ) ∧
    4 * 40 ≤ 5 * 50 := by
  have hm : mkEntry demoCourseA ⟨"Tutorial Room A", 50⟩ "Monday"
      "8 AM - 10 AM" ∈ (schedule_courses [demoCourseA] [demoLecA]).schedule := by
    decide
  exact claim_C5 [demoCourseA] [demoLecA] _ hm

/-- Counterexample to claim C4 as stated: the record emitted for a course
with an unknown lecturer carries no `sessions_assigned` and no
`sessions_needed` key, only the reason. -/
theorem claim_C4_counterexample :
    (schedule_courses [ghostCourse] [demoLecA]).unscheduled =
      [unknownLecturerRecord ghostCourse] ∧
    (unknownLecturerRecord ghostCourse).sessions_assigned = none ∧
    (unknownLecturerRecord ghostCourse).sessions_needed = none ∧
    (unknownLecturerRecord ghostCourse).reason =
      "Lecturer Dr. Ghost not found in system" := by
  refine ⟨by decide, rfl, rfl, by decide⟩

/-- Claim C4 (amended): every unscheduled record carries the original
course fields plus a reason; the shortfall records also carry
`sessions_assigned` and `sessions_needed`, while unknown-lecturer records
carry the reason only (no session-count fields). -/
theorem claim_C4_amended (courses : List Course) (lecs : List LecturerInput)
    (u : UnschedRecord)
    (hu : u ∈ (schedule_courses courses lecs).unscheduled) :
    GoodRecord u := by
  cases courses with
  | nil => exact absurd hu (List.not_mem_nil u)
  | cons c cs => exact (runSchedule_inv (c :: cs) lecs).unsched u hu

/-- Witness for the amended claim C4 at the unknown-lecturer record. -/
theorem claim_C4_witness : GoodRecord (unknownLecturerRecord ghostCourse) := by
  have hm : unknownLecturerRecord ghostCourse ∈
      (schedule_courses [ghostCourse] [demoLecA]).unscheduled := by decide
  exact claim_C4_amended [ghostCourse] [demoLecA] _ hm

/-- Claim C6: a course whose lecturer is not in the table only appends its
"Lecturer <name> not found in system" record — the schedule, the conflict
state and the lecturer table stay untouched (no slot search happens) — and
every scheduled entry's lecturer is a key of the built lecturer table, so
such a course never contributes a schedule entry. -/
theorem claim_C6 (st : SchedState) (c : Course)
    (hl : st.lecturers.lookup c.lecturer = none)
    (courses : List Course) (lecs : List LecturerInput) :
    processCourse st c =
      { st with unscheduled :=
          st.unscheduled ++ [unknownLecturerRecord c] } ∧
    (unknownLecturerRecord c).reason =
      "Lecturer " ++ c.lecturer ++ " not found in system" ∧
    ∀ e ∈ (schedule_courses courses lecs).schedule,
      e.lecturer ∈ (buildLecturers lecs).map Prod.fst := by
  refine ⟨?_, rfl, ?_⟩
  · simp only [processCourse]
    rw [if_pos (by rw [hl]; rfl)]
  · intro e he
    cases courses with
    | nil => exact absurd he (List.not_mem_nil e)
    | cons c' cs =>
      have h := (runSchedule_inv (c' :: cs) lecs).lecKnown e he
      rw [runSchedule_keys] at h
      exact h

/-- Witness for claim C6: the ghost course against the demo table. -/
theorem claim_C6_witness :
    processCourse (initState [demoLecA]) ghostCourse =
      { initState [demoLecA] with unscheduled :=
          (initState [demoLecA]).unscheduled ++
            [unknownLecturerRecord ghostCourse] } :=
  (claim_C6 (initState [demoLecA]) ghostCourse (by decide) [] []).1

/-- Claim C7: when the lecturer is known and the slot scan assigns fewer
sessions than needed, the course step appends exactly one shortfall record
carrying `sessions_assigned`, `sessions_needed` and the
"Could only schedule X/Y sessions" reason, while the scan's schedule keeps
every previously assigned session (no rollback) and the scan itself adds
no unscheduled records, so a partially scheduled course appears in both
lists. -/
theorem claim_C7 (st : SchedState) (c : Course)
    (hl : (st.lecturers.lookup c.lecturer).isNone = false)
    (hs : (scanSlots TIME_SLOTS c
      (calculate_sessions_needed c.hours_per_week) 0 st).1 <
      calculate_sessions_needed c.hours_per_week) :
    processCourse st c =
      { (scanSlots TIME_SLOTS c
          (calculate_sessions_needed c.hours_per_week) 0 st).2 with
        unscheduled := (scanSlots TIME_SLOTS c
          (calculate_sessions_needed c.hours_per_week) 0 st).2.unscheduled ++
          [shortfallRecord c
            (scanSlots TIME_SLOTS c
              (calculate_sessions_needed c.hours_per_week) 0 st).1
            (calculate_sessions_needed c.hours_per_week)] } ∧
    (shortfallRecord c
      (scanSlots TIME_SLOTS c
        (calculate_sessions_needed c.hours_per_week) 0 st).1
      (calculate_sessions_needed c.hours_per_week)).reason =
      "Could only schedule " ++
        toString (scanSlots TIME_SLOTS c
          (calculate_sessions_needed c.hours_per_week) 0 st).1 ++ "/" ++
        toString (calculate_sessions_needed c.hours_per_week) ++
        " sessions" ∧
    (∃ t, (scanSlots TIME_SLOTS c
      (calculate_sessions_needed c.hours_per_week) 0 st).2.schedule =
      st.schedule ++ t) ∧
    (scanSlots TIME_SLOTS c
      (calculate_sessions_needed c.hours_per_week) 0 st).2.unscheduled =
      st.unscheduled := by
  refine ⟨?_, rfl, scanSlots_schedule_ext _ _ _ 0 st,
    scanSlots_unscheduled _ _ _ 0 st⟩
  simp only [processCourse]
  rw [if_neg (by rw [hl]; exact Bool.false_ne_true), if_pos hs]

/-- Witness for claim C7: a 2-session course against a 2-hour lecturer
yields a 1/2 shortfall. -/
theorem claim_C7_witness :
    processCourse (initState [tightLecturer]) tightCourse =
      { (scanSlots TIME_SLOTS tightCourse
          (calculate_sessions_needed tightCourse.hours_per_week) 0
          (initState [tightLecturer])).2 with
        unscheduled := (scanSlots TIME_SLOTS tightCourse
          (calculate_sessions_needed tightCourse.hours_per_week) 0
          (initState [tightLecturer])).2.unscheduled ++
          [shortfallRecord tightCourse
            (scanSlots TIME_SLOTS tightCourse
              (calculate_sessions_needed tightCourse.hours_per_week) 0
              (initState [tightLecturer])).1
            (calculate_sessions_needed tightCourse.hours_per_week)] } :=
  (claim_C7 (initState [tightLecturer]) tightCourse (by decide)
    (by decide)).1

end Scheduler
